import Mathlib

/-!
Verification of the request-assembly and directory-tree summarization pipeline
of the AI code-assistant backend (Express `index.js` upload handler and the
`LLMService` class in `services/llmService.js`).

The JavaScript code is shallowly embedded:
* JS strings are Lean `String`s; JS `.length`, `.slice`, `.split`, `.trim`
  are modelled over the character list (`String.toList`), which agrees with
  the UTF-16 semantics of JS for all code points of the Basic Multilingual
  Plane (file contents and paths in this system are ordinary text).
* JS objects used as string-keyed mappings (the directory tree) are
  insertion-ordered association lists with unique keys; property update
  keeps the position of an existing key, a fresh key is appended, matching
  JS own-property order for string keys.  The only iteration the code
  performs over such a mapping first sorts the keys, so the integer-like
  key exception of the JS property order is unobservable.
* `Array.prototype.sort` is modelled by a stable insertion sort driven by
  the comparator (`insertCmp`/`jsSortStable`): an element is placed before
  the first element it compares strictly less than.  For consistent
  comparators this is exactly the sort the ECMAScript standard specifies.
* Thrown exceptions are `Except String` values carrying the JS error
  message; `generateDirectoryTree` can genuinely throw a `TypeError` when a
  path segment that is already a file node is used as a directory.
* The model client (`generateResponse`) is the external collaborator of the
  orchestrator and is passed to `handleUpload` as a function parameter of
  type `ModelClient`; `llmStatus` and the response timestamp are opaque
  plumbing and are not part of the embedded envelope.
-/

/-- A member of the `files` array of an upload request: `filename` and
`content` are optional JS string properties (`none` models a missing or
`undefined` property). -/
structure SourceFile where
  filename : Option String
  content : Option String
deriving DecidableEq

/-- Model of JS `str.split(sep)` for a one-character separator, over the
character list.  JS `"".split(s)` is `[""]`, hence the base case. -/
def splitCh (sep : Char) : List Char → List (List Char)
  | [] => [[]]
  | c :: cs =>
    match splitCh sep cs with
    | [] => [[]]
    | h :: t => if c == sep then [] :: h :: t else (c :: h) :: t

/-- JS `s.split(sep)` for a one-character separator `sep`. -/
def jsSplit (sep : Char) (s : String) : List String :=
  (splitCh sep s.toList).map String.mk

/-- Model of JS `s.trim()`: drop leading and trailing whitespace. -/
def jsTrim (s : String) : String :=
  String.mk (((s.toList.dropWhile Char.isWhitespace).reverse.dropWhile
    Char.isWhitespace).reverse)

/-- Model of JS `s.slice(0, n)`: the first `n` characters. -/
def jsSlice (s : String) (n : Nat) : String :=
  String.mk (s.toList.take n)

/-- The fixed per-file character budget of the context payload
(`const CONTEXT_CHAR_LIMIT_PER_FILE = 8000`). -/
def CONTEXT_CHAR_LIMIT_PER_FILE : Nat := 8000

/-- A node of the directory tree built by `generateDirectoryTree`.  The JS
code tags nodes with `type: 'file' | 'directory'`; here the tag is the
constructor.  A directory's `children` mapping is an insertion-ordered
association list. -/
inductive JNode where
  | file (size : Nat) (extensionStr : String) (preview : List String)
  | dir (children : List (String × JNode))

/-- Property read `tree[key]` on the association-list model of a JS object. -/
def alistGet (tree : List (String × JNode)) (key : String) : Option JNode :=
  match tree with
  | [] => none
  | (k, v) :: rest => if k == key then some v else alistGet rest key

/-- Property write `tree[key] = val`: an existing key keeps its position,
a fresh key is appended, as in a JS object. -/
def alistSet (tree : List (String × JNode)) (key : String) (val : JNode) :
    List (String × JNode) :=
  match tree with
  | [] => [(key, val)]
  | (k, v) :: rest =>
    if k == key then (k, val) :: rest else (k, v) :: alistSet rest key val

/-- The extension computation of `generateDirectoryTree`:
`part.split('.').pop() || 'unknown'`.  `pop` of the never-empty split
result is its last element; the `||` turns an empty string (falsy) into
`'unknown'`. -/
def extOf (segment : String) : String :=
  let popped := (splitCh '.' segment.toList).getLastD []
  if popped.isEmpty then "unknown" else String.mk popped

/-- The preview computation of `generateDirectoryTree`: all lines of the
content, each trimmed, empty lines dropped, first three kept. -/
def filePreview (content : String) : List String :=
  ((((jsSplit '\n' content).map jsTrim).filter
    (fun line => decide (0 < line.length))).take 3)

/-- The file node `generateDirectoryTree` stores at the last path segment. -/
def mkFileNode (segment content : String) : JNode :=
  JNode.file content.length (extOf segment) (filePreview content)

/-- One `file` iteration of `generateDirectoryTree`: walk the path segments
from the current mapping, creating directory nodes for missing intermediate
segments and storing a file node at the last one.  When an intermediate
segment is already a file node the JS walk sets `current` to the file
node's (absent) `children` and the next loop iteration throws a
`TypeError`; the `.error` cases carry that error's message. -/
def insertPath (content : String) :
    List String → List (String × JNode) → Except String (List (String × JNode))
  | [], tree => .ok tree
  | [segment], tree => .ok (alistSet tree segment (mkFileNode segment content))
  | segment :: next :: rest, tree =>
    match alistGet tree segment with
    | some (JNode.file _ _ _) =>
      match rest with
      | [] => .error ("Cannot set properties of undefined (setting '" ++ next ++ "')")
      | _ :: _ => .error ("Cannot read properties of undefined (reading '" ++ next ++ "')")
    | some (JNode.dir children) =>
      match insertPath content (next :: rest) children with
      | .error e => .error e
      | .ok children2 => .ok (alistSet tree segment (JNode.dir children2))
    | none =>
      match insertPath content (next :: rest) [] with
      | .error e => .error e
      | .ok children2 => .ok (alistSet tree segment (JNode.dir children2))

/-- The `files.forEach` loop of `generateDirectoryTree`: files with a
missing or empty `filename` are skipped (`if (!file.filename) return`), a
thrown `TypeError` aborts the whole traversal. -/
def treeGo : List SourceFile → List (String × JNode) → Except String (List (String × JNode))
  | [], tree => .ok tree
  | f :: fs, tree =>
    if f.filename.getD "" == "" then treeGo fs tree
    else
      match insertPath (f.content.getD "") (jsSplit '/' (f.filename.getD "")) tree with
      | .error e => .error e
      | .ok tree2 => treeGo fs tree2

/-- `generateDirectoryTree(files)` of `llmService.js`: the returned value is
the top-level mapping, or the message of the thrown `TypeError`. -/
def generateDirectoryTree (files : List SourceFile) :
    Except String (List (String × JNode)) :=
  treeGo files []

/-- The part of a filename before its first `/` (the whole filename when it
contains none): the first entry of `filename.split('/')`. -/
def firstSegment (filename : String) : String :=
  (jsSplit '/' filename).headD ""

/-- Stable comparator-driven insertion: `x` is placed before the first
element `y` with `c x y < 0`, after every element it ties with or follows.
This is the ordering contract of `Array.prototype.sort` for a consistent
comparator `c`. -/
def insertCmp {α : Type} (c : α → α → Int) (x : α) : List α → List α
  | [] => [x]
  | y :: ys => if c x y < 0 then x :: y :: ys else y :: insertCmp c x ys

/-- Model of JS `array.sort(c)` (stable, comparator-driven). -/
def jsSortStable {α : Type} (c : α → α → Int) (l : List α) : List α :=
  l.foldl (fun acc x => insertCmp c x acc) []

/-- The default comparator of `Object.keys(tree).sort()`: lexicographic
string comparison of the keys. -/
def keyCmp (a b : String × JNode) : Int :=
  if a.1 < b.1 then -1 else if b.1 < a.1 then 1 else 0

/-- The `Object.keys(tree).sort().forEach` renderer of `formatDirectoryTree`
in `llmService.js`.  Sorting the (unique-keyed) entry list by key is the
association-list counterpart of sorting the key array and looking each key
up; the sorted entries are rendered in order: a directory line followed by
the recursively formatted children with two more spaces of indent, or a
file line followed by the preview lines and a trailing ellipsis line. -/
def formatDirectoryTree (tree : List (String × JNode)) (indent : String) : String :=
  ((jsSortStable (fun a b => keyCmp a.1 b.1) tree.attach).map
    (fun p =>
      match p with
      | ⟨(key, JNode.dir children), hp⟩ =>
        indent ++ "📁 " ++ key ++ "/\n" ++ formatDirectoryTree children (indent ++ "  ")
      | ⟨(key, JNode.file size extn preview), _hp⟩ =>
        indent ++ "📄 " ++ key ++ " (" ++ toString size ++ " chars, ." ++ extn ++ ")\n" ++
        (preview.map (fun line => indent ++ "   " ++ line ++ "\n")).foldl
          (fun a b => a ++ b) "" ++
        indent ++ "   ...\n")).foldl (fun a b => a ++ b) ""
termination_by sizeOf tree
decreasing_by
  have hmem := List.sizeOf_lt_of_mem hp
  simp_all
  omega

/-- The string `formatDirectoryTree` emits for one tree entry (used to state
that the tree is rendered entry by entry in sorted key order). -/
def renderEntry (indent : String) (p : String × JNode) : String :=
  match p with
  | (key, JNode.dir children) =>
    indent ++ "📁 " ++ key ++ "/\n" ++ formatDirectoryTree children (indent ++ "  ")
  | (key, JNode.file size extn preview) =>
    indent ++ "📄 " ++ key ++ " (" ++ toString size ++ " chars, ." ++ extn ++ ")\n" ++
    (preview.map (fun line => indent ++ "   " ++ line ++ "\n")).foldl
      (fun a b => a ++ b) "" ++
    indent ++ "   ...\n"

/-- JS `file.filename === currentFile` where `filename` may be `undefined`
and `currentFile` may be `null`: strict equality holds only when both are
strings and equal. -/
def fnameMatches (fname currentFile : Option String) : Bool :=
  match fname, currentFile with
  | some a, some b => a == b
  | _, _ => false

/-- The comparator `prepareFileContext` passes to `sort` when a (truthy)
current file `c` is set: a file whose `filename` equals `c` compares before
everything, all other pairs tie. -/
def cfCmp (c : String) (a b : SourceFile) : Int :=
  if fnameMatches a.filename (some c) then -1
  else if fnameMatches b.filename (some c) then 1
  else 0

/-- The file ordering of `prepareFileContext`: when `currentFile` is truthy
(a non-empty string) the copied array is sorted with `cfCmp`, otherwise the
input order is kept. -/
def orderedFiles (currentFile : Option String) (files : List SourceFile) :
    List SourceFile :=
  match currentFile with
  | some c => if c == "" then files else jsSortStable (cfCmp c) files
  | none => files

/-- The header line of a per-file context block:
`File: {filename}` plus ` [CURRENT FILE]` when the filename strictly equals
the current file (a missing filename renders as `undefined`). -/
def fileBlockHeader (currentFile : Option String) (fname : Option String) : String :=
  "File: " ++ fname.getD "undefined" ++
  (if fnameMatches fname currentFile then " [CURRENT FILE]" else "")

/-- The per-file block of `prepareFileContext`: header, first 8000
characters of the content, a `...(truncated)` marker when the content was
longer, and a `---` terminator. -/
def fileBlock (currentFile : Option String) (f : SourceFile) : String :=
  let content := f.content.getD ""
  fileBlockHeader currentFile f.filename ++ "\n" ++
  jsSlice content CONTEXT_CHAR_LIMIT_PER_FILE ++
  (if CONTEXT_CHAR_LIMIT_PER_FILE < content.length then "\n...(truncated)" else "") ++
  "\n---"

/-- `prepareFileContext(files, currentFile)` of `llmService.js`: the per-file
blocks in `orderedFiles` order, joined with blank lines. -/
def prepareFileContext (files : List SourceFile) (currentFile : Option String) : String :=
  String.intercalate "\n\n" ((orderedFiles currentFile files).map (fileBlock currentFile))

/-- A JS value as it can arrive in the JSON body of the upload request.
`undef` models a missing property; `jarr` carries the file list (the only
array the handler looks into); `jobj` stands for any other (truthy)
object. -/
inductive JSVal where
  | undef
  | jnull
  | jbool (b : Bool)
  | jnum (n : Int)
  | jstr (s : String)
  | jarr (files : List SourceFile)
  | jobj
deriving DecidableEq

/-- JS truthiness of an embedded value (`undefined`, `null`, `false`, `0`
and `""` are falsy; arrays and objects are always truthy). -/
def truthy : JSVal → Bool
  | .undef => false
  | .jnull => false
  | .jbool b => b
  | .jnum n => n != 0
  | .jstr s => s != ""
  | .jarr _ => true
  | .jobj => true

/-- JS `Array.isArray(v)`. -/
def isArray : JSVal → Bool
  | .jarr _ => true
  | _ => false

/-- JS `typeof v === 'string'`. -/
def isString : JSVal → Bool
  | .jstr _ => true
  | _ => false

/-- The file list carried by an array value (the handler reads it only
after `Array.isArray` has succeeded). -/
def jsvArr : JSVal → List SourceFile
  | .jarr fs => fs
  | _ => []

/-- The string carried by a string value (read only after the `typeof`
check has succeeded). -/
def jsvStr : JSVal → String
  | .jstr s => s
  | _ => ""

/-- The deserialized JSON body of a `POST /upload` request. -/
structure UploadRequest where
  files : JSVal
  prompt : JSVal
  currentFile : JSVal

/-- The success envelope assembled by the upload handler.  `llmStatus` and
the ISO timestamp of `metadata` are opaque collaborator output and wall
clock readings and are not embedded; `filesProcessed` and
`totalCharacters` are the two computed metadata fields. -/
structure UploadResponse where
  message : String
  aiResponse : String
  directoryTree : List (String × JNode)
  filesProcessed : Nat
  totalCharacters : Nat

/-- The observable outcome of one upload request: a 400 validation
rejection `{error}`, a 500 error envelope `{error, message}` produced by
the catch block, or a 200 success envelope. -/
inductive UploadResult where
  | validationError (error : String)
  | internalError (error : String) (message : String)
  | success (response : UploadResponse)

/-- The model-client collaborator boundary (`llmService.generateResponse`):
given the prompt, the files and the current file it either produces the AI
text or fails with an error message. -/
def ModelClient : Type :=
  String → List SourceFile → Option String → Except String String

/-- JS `currentFile || null` at the model-client call site: the string when
it is truthy, `null` otherwise. -/
def cfOrNull (v : JSVal) : Option String :=
  if truthy v && isString v then some (jsvStr v) else none

/-- The `POST /upload` handler of `index.js`: three validation checks, the
directory-tree build, the model-client call, and either the success
envelope or the catch-block error envelope (a thrown error's message is
preserved next to the fixed `Internal server error` tag). -/
def handleUpload (model : ModelClient) (req : UploadRequest) : UploadResult :=
  if !truthy req.files || !isArray req.files then
    .validationError "Invalid request: files must be an array"
  else if !truthy req.prompt || !isString req.prompt then
    .validationError "Invalid request: prompt must be a string"
  else if truthy req.currentFile && !isString req.currentFile then
    .validationError "Invalid request: currentFile must be a string when provided"
  else
    let files := jsvArr req.files
    match generateDirectoryTree files with
    | .error e => .internalError "Internal server error" e
    | .ok tree =>
      match model (jsvStr req.prompt) files (cfOrNull req.currentFile) with
      | .error msg => .internalError "Internal server error" msg
      | .ok aiResponse =>
        .success
          { message := "Successfully processed " ++ toString files.length ++ " files."
            aiResponse := aiResponse
            directoryTree := tree
            filesProcessed := files.length
            totalCharacters := (files.map (fun f => (f.content.getD "").length)).sum }

/-- A model client that always succeeds (used to instantiate theorems about
requests that never reach the model). -/
def okModel : ModelClient := fun _ _ _ => .ok "ok"

theorem splitCh_ne_nil (sep : Char) (l : List Char) : splitCh sep l ≠ [] := by
  cases l with
  | nil => simp [splitCh]
  | cons c cs =>
    simp only [splitCh]
    cases hx : splitCh sep cs <;> simp [hx] <;> split <;> simp

theorem splitCh_no_sep (sep : Char) (l : List Char) (h : sep ∉ l) :
    splitCh sep l = [l] := by
  induction l with
  | nil => rfl
  | cons c cs ih =>
    rw [List.mem_cons, not_or] at h
    simp only [splitCh, ih h.2]
    rw [if_neg (by simp [Ne.symm h.1])]

theorem splitCh_length_two (sep : Char) (l₁ l₂ : List Char) :
    2 ≤ (splitCh sep (l₁ ++ sep :: l₂)).length := by
  induction l₁ with
  | nil =>
    simp only [List.nil_append, splitCh]
    cases hx : splitCh sep l₂ with
    | nil => exact absurd hx (splitCh_ne_nil sep l₂)
    | cons h t => simp
  | cons c l₁ ih =>
    cases hx : splitCh sep (l₁ ++ sep :: l₂) with
    | nil => exact absurd hx (splitCh_ne_nil sep _)
    | cons h t =>
      rw [hx] at ih
      simp only [List.cons_append, splitCh, List.append_eq, hx]
      split
      · simp
      · simp only [List.length_cons] at ih ⊢
        omega

theorem getLastD_irrel {α : Type} (l : List α) (d₁ d₂ : α) (h : l ≠ []) :
    l.getLastD d₁ = l.getLastD d₂ := by
  cases l with
  | nil => exact absurd rfl h
  | cons a t => rw [List.getLastD_cons, List.getLastD_cons]

theorem splitCh_getLast_sep (sep : Char) (l₁ l₂ : List Char) (h : sep ∉ l₂) :
    (splitCh sep (l₁ ++ sep :: l₂)).getLastD [] = l₂ := by
  induction l₁ with
  | nil =>
    simp only [List.nil_append, splitCh, splitCh_no_sep sep l₂ h]
    simp
  | cons c l₁ ih =>
    cases hx : splitCh sep (l₁ ++ sep :: l₂) with
    | nil => exact absurd hx (splitCh_ne_nil sep _)
    | cons hd t =>
      have ht : t ≠ [] := by
        have h2 := splitCh_length_two sep l₁ l₂
        rw [hx] at h2
        simp only [List.length_cons] at h2
        intro he
        rw [he] at h2
        simp at h2
      rw [hx] at ih
      simp only [List.cons_append, splitCh, List.append_eq, hx]
      split
      · rw [List.getLastD_cons]
        exact ih
      · rw [List.getLastD_cons]
        rw [List.getLastD_cons] at ih
        rw [getLastD_irrel t _ hd ht]
        exact ih

theorem jsSplit_ne_nil (sep : Char) (s : String) : jsSplit sep s ≠ [] := by
  simp only [jsSplit]
  intro h
  rw [List.map_eq_nil_iff] at h
  exact splitCh_ne_nil sep s.toList h

theorem alistSet_keys (tree : List (String × JNode)) (key j : String) (val : JNode) :
    j ∈ (alistSet tree key val).map Prod.fst ↔ j ∈ tree.map Prod.fst ∨ j = key := by
  induction tree with
  | nil => simp [alistSet]
  | cons e rest ih =>
    obtain ⟨k, v⟩ := e
    by_cases hk : k == key
    · simp only [alistSet, if_pos hk]
      have : k = key := by simpa using hk
      subst this
      simp
      tauto
    · simp only [alistSet, if_neg hk]
      simp only [List.map_cons, List.mem_cons, ih]
      tauto

theorem insertPath_keys (content : String) (parts : List String)
    (t t' : List (String × JNode)) (hne : parts ≠ [])
    (h : insertPath content parts t = .ok t') (j : String) :
    j ∈ t'.map Prod.fst ↔ j ∈ t.map Prod.fst ∨ j = parts.headD "" := by
  match parts, hne with
  | [seg], _ =>
    simp only [insertPath, Except.ok.injEq] at h
    subst h
    simpa using alistSet_keys t seg j (mkFileNode seg content)
  | seg :: next :: rest, _ =>
    simp only [insertPath] at h
    cases hg : alistGet t seg with
    | none =>
      rw [hg] at h
      dsimp only at h
      cases hrec : insertPath content (next :: rest) [] with
      | error e => rw [hrec] at h; cases h
      | ok c2 =>
        rw [hrec] at h
        simp only [Except.ok.injEq] at h
        subst h
        simpa using alistSet_keys t seg j (JNode.dir c2)
    | some node =>
      rw [hg] at h
      cases node with
      | file sz ex pv =>
        dsimp only at h
        cases rest <;> cases h
      | dir children =>
        dsimp only at h
        cases hrec : insertPath content (next :: rest) children with
        | error e => rw [hrec] at h; cases h
        | ok c2 =>
          rw [hrec] at h
          simp only [Except.ok.injEq] at h
          subst h
          simpa using alistSet_keys t seg j (JNode.dir c2)

theorem treeGo_keys (files : List SourceFile) (t tree : List (String × JNode))
    (h : treeGo files t = .ok tree) (j : String) :
    j ∈ tree.map Prod.fst ↔ j ∈ t.map Prod.fst ∨
      j ∈ (files.filter (fun f => f.filename.getD "" != "")).map
            (fun f => firstSegment (f.filename.getD "")) := by
  induction files generalizing t with
  | nil =>
    simp only [treeGo, Except.ok.injEq] at h
    subst h
    simp
  | cons f fs ih =>
    simp only [treeGo] at h
    by_cases hb : (f.filename.getD "" == "") = true
    · rw [if_pos hb] at h
      rw [List.filter_cons, if_neg (by simp [bne, hb])]
      exact ih t h
    · rw [if_neg hb] at h
      cases hins : insertPath (f.content.getD "") (jsSplit '/' (f.filename.getD "")) t with
      | error e => rw [hins] at h; cases h
      | ok t2 =>
        rw [hins] at h
        have hkeys := insertPath_keys (f.content.getD "")
          (jsSplit '/' (f.filename.getD "")) t t2
          (jsSplit_ne_nil '/' _) hins j
        have hb2 : (f.filename.getD "" == "") = false := by simpa using hb
        rw [List.filter_cons, if_pos (by simp [bne, hb2])]
        rw [ih t2 h, hkeys]
        simp only [List.map_cons, List.mem_cons]
        have hseg : (jsSplit '/' (f.filename.getD "")).headD ""
            = firstSegment (f.filename.getD "") := rfl
        rw [hseg]
        tauto

theorem insertCmp_perm {α : Type} (c : α → α → Int) (x : α) (l : List α) :
    (insertCmp c x l).Perm (x :: l) := by
  induction l with
  | nil => exact List.Perm.refl _
  | cons y ys ih =>
    simp only [insertCmp]
    split
    · exact List.Perm.refl _
    · exact ((List.perm_cons y).mpr ih).trans (List.Perm.swap x y ys)

theorem foldl_insertCmp_perm {α : Type} (c : α → α → Int) (l acc : List α) :
    (l.foldl (fun acc x => insertCmp c x acc) acc).Perm (acc ++ l) := by
  induction l generalizing acc with
  | nil => simp
  | cons x xs ih =>
    simp only [List.foldl_cons]
    have h1 : (insertCmp c x acc ++ xs).Perm ((x :: acc) ++ xs) :=
      List.Perm.append_right xs (insertCmp_perm c x acc)
    have h2 : ((x :: acc) ++ xs).Perm (acc ++ x :: xs) := by
      have hmid : (acc ++ x :: xs).Perm (x :: (acc ++ xs)) := List.perm_middle
      simpa using hmid.symm
    exact (ih (insertCmp c x acc)).trans (h1.trans h2)

theorem jsSortStable_perm {α : Type} (c : α → α → Int) (l : List α) :
    (jsSortStable c l).Perm l := by
  simpa using foldl_insertCmp_perm c l []

theorem keyCmp_lt_iff (a b : String × JNode) : keyCmp a b < 0 ↔ a.1 < b.1 := by
  unfold keyCmp
  split
  · simp_all
  · split <;> simp_all

theorem insertCmp_keyCmp_sorted (x : String × JNode) (l : List (String × JNode))
    (h : List.Sorted (fun a b : String × JNode => a.1 ≤ b.1) l) :
    List.Sorted (fun a b : String × JNode => a.1 ≤ b.1) (insertCmp keyCmp x l) := by
  induction l with
  | nil => simp [insertCmp]
  | cons y ys ih =>
    rw [List.sorted_cons] at h
    obtain ⟨hy, hys⟩ := h
    simp only [insertCmp]
    split
    case isTrue hlt =>
      rw [keyCmp_lt_iff] at hlt
      rw [List.sorted_cons]
      refine ⟨?_, List.sorted_cons.mpr ⟨hy, hys⟩⟩
      intro b hb
      rcases List.mem_cons.mp hb with hb | hb
      · exact hb ▸ hlt.le
      · exact hlt.le.trans (hy b hb)
    case isFalse hge =>
      rw [keyCmp_lt_iff, not_lt] at hge
      rw [List.sorted_cons]
      refine ⟨?_, ih hys⟩
      intro b hb
      rcases List.mem_cons.mp ((insertCmp_perm keyCmp x ys).mem_iff.mp hb) with hb | hb
      · exact hb ▸ hge
      · exact hy b hb

theorem foldl_insertCmp_keyCmp_sorted (l acc : List (String × JNode))
    (hacc : List.Sorted (fun a b : String × JNode => a.1 ≤ b.1) acc) :
    List.Sorted (fun a b : String × JNode => a.1 ≤ b.1)
      (l.foldl (fun acc x => insertCmp keyCmp x acc) acc) := by
  induction l generalizing acc with
  | nil => exact hacc
  | cons x xs ih => exact ih _ (insertCmp_keyCmp_sorted x acc hacc)

theorem jsSortStable_keyCmp_sorted (l : List (String × JNode)) :
    List.Sorted (fun a b : String × JNode => a.1 ≤ b.1) (jsSortStable keyCmp l) :=
  foldl_insertCmp_keyCmp_sorted l [] (by simp)

theorem jsSortStable_keyCmp_eq_of_perm (m₁ m₂ : List (String × JNode))
    (hp : m₁.Perm m₂) (hnd : (m₁.map Prod.fst).Nodup) :
    jsSortStable keyCmp m₁ = jsSortStable keyCmp m₂ := by
  haveI : IsAntisymm (String × JNode) (fun a b => a.1 < b.1) :=
    ⟨fun a b h1 h2 => absurd h2 (asymm h1)⟩
  have hperm : (jsSortStable keyCmp m₁).Perm (jsSortStable keyCmp m₂) :=
    ((jsSortStable_perm keyCmp m₁).trans hp).trans (jsSortStable_perm keyCmp m₂).symm
  have strict : ∀ s : List (String × JNode), s.Perm m₁ →
      List.Sorted (fun a b : String × JNode => a.1 ≤ b.1) s →
      List.Sorted (fun a b : String × JNode => a.1 < b.1) s := by
    intro s hs hsort
    have hnds : (s.map Prod.fst).Nodup := hnd.perm (hs.map Prod.fst).symm
    have hne : List.Pairwise (fun a b : String × JNode => a.1 ≠ b.1) s :=
      (List.pairwise_map.mp hnds)
    exact (hsort.and hne).imp (fun hab => lt_of_le_of_ne hab.1 hab.2)
  exact List.eq_of_perm_of_sorted hperm
    (strict _ (jsSortStable_perm keyCmp m₁) (jsSortStable_keyCmp_sorted m₁))
    (strict _ ((jsSortStable_perm keyCmp m₂).trans hp.symm) (jsSortStable_keyCmp_sorted m₂))

theorem insertCmp_map {α β : Type} (g : α → β) (c : β → β → Int) (x : α) (l : List α) :
    (insertCmp (fun a b => c (g a) (g b)) x l).map g = insertCmp c (g x) (l.map g) := by
  induction l with
  | nil => rfl
  | cons y ys ih =>
    simp only [insertCmp, List.map]
    split <;> simp_all [insertCmp]

theorem jsSortStable_map {α β : Type} (g : α → β) (c : β → β → Int) (l : List α) :
    (jsSortStable (fun a b => c (g a) (g b)) l).map g = jsSortStable c (l.map g) := by
  suffices h : ∀ acc : List α,
      (l.foldl (fun acc x => insertCmp (fun a b => c (g a) (g b)) x acc) acc).map g
        = (l.map g).foldl (fun acc x => insertCmp c x acc) (acc.map g) from h []
  induction l with
  | nil => intro acc; rfl
  | cons y ys ih =>
    intro acc
    simp only [List.foldl, List.map]
    rw [ih, insertCmp_map]

theorem formatDirectoryTree_eq (tree : List (String × JNode)) (indent : String) :
    formatDirectoryTree tree indent
      = ((jsSortStable keyCmp tree).map (renderEntry indent)).foldl (fun a b => a ++ b) "" := by
  rw [formatDirectoryTree]
  congr 1
  refine Eq.trans (b := ((jsSortStable (fun a b : {x // x ∈ tree} => keyCmp a.1 b.1)
      tree.attach).map (fun p => renderEntry indent p.1))) ?_ ?_
  · exact List.map_congr_left (fun p _ => by
      obtain ⟨⟨k, n⟩, hp⟩ := p
      cases n <;> rfl)
  · show List.map (renderEntry indent ∘ Subtype.val)
      (jsSortStable (fun a b => keyCmp (Subtype.val a) (Subtype.val b)) tree.attach)
      = _
    rw [← List.map_map (renderEntry indent) Subtype.val]
    rw [jsSortStable_map Subtype.val keyCmp tree.attach]
    congr 1
    exact congrArg (jsSortStable keyCmp) (by
      have h2 : List.map Subtype.val tree.attach = List.map id tree :=
        List.attach_map_val tree id
      rw [h2, List.map_id])

theorem fnameMatches_false_of (f : SourceFile) (c : String)
    (h : f.filename ≠ some c) : fnameMatches f.filename (some c) = false := by
  cases hf : f.filename with
  | none => rfl
  | some a =>
    rw [hf] at h
    simp only [fnameMatches]
    simpa using fun he => h (by rw [he])

theorem insertCmp_cfCmp_nonmatch (c : String) (x : SourceFile)
    (hx : fnameMatches x.filename (some c) = false) (acc : List SourceFile) :
    insertCmp (cfCmp c) x acc = acc ++ [x] := by
  induction acc with
  | nil => rfl
  | cons y ys ih =>
    have hval : ¬ cfCmp c x y < 0 := by
      simp only [cfCmp, hx, Bool.false_eq_true, if_false]
      split <;> decide
    simp only [insertCmp, if_neg hval, ih]
    rfl

theorem insertCmp_cfCmp_match (c : String) (x : SourceFile)
    (hx : fnameMatches x.filename (some c) = true) (acc : List SourceFile) :
    insertCmp (cfCmp c) x acc = x :: acc := by
  cases acc with
  | nil => rfl
  | cons y ys =>
    have hval : cfCmp c x y = -1 := by simp [cfCmp, hx]
    simp only [insertCmp, hval]
    rw [if_pos (by decide)]

theorem foldl_cfCmp_nonmatch (c : String) (ns : List SourceFile)
    (h : ∀ f ∈ ns, fnameMatches f.filename (some c) = false) (acc : List SourceFile) :
    ns.foldl (fun acc x => insertCmp (cfCmp c) x acc) acc = acc ++ ns := by
  induction ns generalizing acc with
  | nil => simp
  | cons n ns ih =>
    simp only [List.foldl_cons]
    rw [insertCmp_cfCmp_nonmatch c n (h n (List.mem_cons_self n ns)) acc]
    rw [ih (fun f hf => h f (List.mem_cons_of_mem n hf)) (acc ++ [n])]
    simp

theorem orderedFiles_currentFirst (c : String) (l₁ l₂ : List SourceFile)
    (m : SourceFile) (hc : c ≠ "") (hm : m.filename = some c)
    (h₁ : ∀ f ∈ l₁, f.filename ≠ some c) (h₂ : ∀ f ∈ l₂, f.filename ≠ some c) :
    orderedFiles (some c) (l₁ ++ m :: l₂) = m :: (l₁ ++ l₂) := by
  have hceq : (c == "") = false := by simpa using hc
  simp only [orderedFiles, hceq, Bool.false_eq_true, if_false]
  unfold jsSortStable
  rw [List.foldl_append]
  rw [foldl_cfCmp_nonmatch c l₁ (fun f hf => fnameMatches_false_of f c (h₁ f hf)) []]
  simp only [List.nil_append, List.foldl_cons]
  rw [insertCmp_cfCmp_match c m (by simp [fnameMatches, hm]) l₁]
  rw [foldl_cfCmp_nonmatch c l₂ (fun f hf => fnameMatches_false_of f c (h₂ f hf)) (m :: l₁)]
  simp

theorem strLenPos_bne (s : String) : decide (0 < s.length) = (s != "") := by
  by_cases h : s = ""
  · subst h; rfl
  · have hbe : (s == "") = false := by simpa using h
    have hl : 0 < s.length := by
      cases s with
      | mk data =>
        cases data with
        | nil => exact absurd rfl h
        | cons c cs => simp [String.length]
    simp [bne, hbe, hl]

/-- C3: the per-file block of `prepareFileContext` carries exactly the
first `min(L, 8000)` characters of the content as its body, the
`...(truncated)` marker is appended exactly when the content length
exceeds 8000, and for a single file the assembled context is exactly that
block. -/
theorem prepareFileContext_truncation (content : String) (fn cf : Option String) :
    fileBlock cf ⟨fn, some content⟩ =
      fileBlockHeader cf fn ++ "\n" ++ jsSlice content CONTEXT_CHAR_LIMIT_PER_FILE ++
        (if CONTEXT_CHAR_LIMIT_PER_FILE < content.length then "\n...(truncated)" else "")
        ++ "\n---" ∧
    (jsSlice content CONTEXT_CHAR_LIMIT_PER_FILE).length
      = min content.length CONTEXT_CHAR_LIMIT_PER_FILE ∧
    ((if CONTEXT_CHAR_LIMIT_PER_FILE < content.length then "\n...(truncated)" else "") ≠ ""
      ↔ CONTEXT_CHAR_LIMIT_PER_FILE < content.length) ∧
    prepareFileContext [⟨fn, some content⟩] none = fileBlock none ⟨fn, some content⟩ := by
  refine ⟨rfl, ?_, ?_, rfl⟩
  · show (content.toList.take CONTEXT_CHAR_LIMIT_PER_FILE).length = _
    rw [List.length_take, Nat.min_comm]
    rfl
  · split
    case isTrue h => simp [h]
    case isFalse h => simp [h]

/-- C8 counterexample: a path segment ending in a dot gets extension
`unknown`, not the empty substring after the final dot: the `|| 'unknown'`
fallback of `part.split('.').pop() || 'unknown'` also fires on the empty
string. -/
theorem extension_trailing_dot_counterexample :
    generateDirectoryTree [⟨some "file.", some ""⟩]
      = .ok [("file.", JNode.file 0 "unknown" [])] ∧
    ("unknown" : String) ≠ "" := ⟨rfl, by decide⟩

/-- C8 amended: the extension of a file node is the substring after the
final dot of its last path segment when that substring is non-empty, the
full segment when the segment is non-empty and contains no dot, and the
fallback `unknown` when the segment ends in a dot or is itself empty (as
for a filename ending in `/`, whose last segment is the empty string). -/
theorem extension_after_last_dot :
    (∀ l : List Char, l ≠ [] → '.' ∉ l → extOf (String.mk l) = String.mk l) ∧
    (∀ l₁ l₂ : List Char, l₂ ≠ [] → '.' ∉ l₂ →
      extOf (String.mk (l₁ ++ '.' :: l₂)) = String.mk l₂) ∧
    (∀ l₁ : List Char, extOf (String.mk (l₁ ++ ['.'])) = "unknown") ∧
    extOf "" = "unknown" ∧
    generateDirectoryTree [⟨some "a/", some ""⟩]
      = .ok [("a", JNode.dir [("", JNode.file 0 "unknown" [])])] := by
  refine ⟨?_, ?_, ?_, rfl, rfl⟩
  · intro l hne hnd
    simp only [extOf]
    rw [show (String.mk l).toList = l from rfl, splitCh_no_sep '.' l hnd]
    rw [show ([l] : List (List Char)).getLastD [] = l from rfl]
    rw [if_neg (by simpa using hne)]
  · intro l₁ l₂ hne hnd
    simp only [extOf]
    rw [show (String.mk (l₁ ++ '.' :: l₂)).toList = l₁ ++ '.' :: l₂ from rfl]
    rw [splitCh_getLast_sep '.' l₁ l₂ hnd]
    rw [if_neg (by simpa using hne)]
  · intro l₁
    simp only [extOf]
    rw [show (String.mk (l₁ ++ ['.'])).toList = l₁ ++ '.' :: [] from rfl]
    rw [splitCh_getLast_sep '.' l₁ [] (by simp)]
    rfl

theorem extension_after_last_dot_witness :
    extOf (String.mk (['a'] ++ '.' :: ['t', 'x', 't'])) = String.mk ['t', 'x', 't'] :=
  extension_after_last_dot.2.1 ['a'] ['t', 'x', 't'] (by decide) (by decide)

/-- C10: on the file list `[a, a/b]` (in that order) `generateDirectoryTree`
throws a `TypeError` instead of returning a mapping — the walk descends
into the absent `children` of the file node already stored at `a` — and an
otherwise valid upload request carrying these files is answered with the
`Internal server error` envelope, not a success or validation response. -/
theorem treeBuild_typeError :
    generateDirectoryTree [⟨some "a", none⟩, ⟨some "a/b", none⟩]
      = .error "Cannot set properties of undefined (setting 'b')" ∧
    handleUpload okModel
      ⟨.jarr [⟨some "a", none⟩, ⟨some "a/b", none⟩], .jstr "hello", .undef⟩
      = .internalError "Internal server error"
          "Cannot set properties of undefined (setting 'b')" ∧
    (∀ resp, handleUpload okModel
      ⟨.jarr [⟨some "a", none⟩, ⟨some "a/b", none⟩], .jstr "hello", .undef⟩
      ≠ .success resp) ∧
    (∀ e, handleUpload okModel
      ⟨.jarr [⟨some "a", none⟩, ⟨some "a/b", none⟩], .jstr "hello", .undef⟩
      ≠ .validationError e) := by
  refine ⟨rfl, rfl, ?_, ?_⟩ <;> intro x h <;> exact nomatch h

/-- C2: whenever `generateDirectoryTree` returns a mapping, its top-level
keys are exactly the first path segments of the non-empty filenames of the
input, and an input that is empty or has only filename-less entries yields
the empty mapping. -/
theorem generateDirectoryTree_topLevelKeys (files : List SourceFile)
    (tree : List (String × JNode)) (h : generateDirectoryTree files = .ok tree) :
    (∀ k, k ∈ tree.map Prod.fst ↔
      k ∈ (files.filter (fun f => f.filename.getD "" != "")).map
            (fun f => firstSegment (f.filename.getD ""))) ∧
    ((∀ f ∈ files, f.filename.getD "" = "") → tree = []) := by
  have hk := treeGo_keys files [] tree h
  refine ⟨fun k => by simpa using hk k, ?_⟩
  intro hall
  have hmap : tree.map Prod.fst = [] := by
    rw [List.eq_nil_iff_forall_not_mem]
    intro k hkmem
    have hmem := (by simpa using hk k : k ∈ tree.map Prod.fst ↔ _).mp hkmem
    obtain ⟨a, ⟨ha, hne⟩, _⟩ := hmem
    exact hne (hall a ha)
  exact List.map_eq_nil_iff.mp hmap

theorem generateDirectoryTree_topLevelKeys_witness :
    ("src" ∈ ([("src", JNode.dir [("app.js", JNode.file 1 "js" ["x"])]),
               ("b.txt", JNode.file 0 "txt" [])].map Prod.fst)) ↔
    ("src" ∈ ((([⟨some "src/app.js", some "x"⟩, ⟨none, some "y"⟩,
                 ⟨some "b.txt", none⟩] : List SourceFile).filter
        (fun f => f.filename.getD "" != "")).map
          (fun f => firstSegment (f.filename.getD "")))) :=
  (generateDirectoryTree_topLevelKeys
    [⟨some "src/app.js", some "x"⟩, ⟨none, some "y"⟩, ⟨some "b.txt", none⟩]
    [("src", JNode.dir [("app.js", JNode.file 1 "js" ["x"])]),
     ("b.txt", JNode.file 0 "txt" [])]
    rfl).1 "src"

/-- C7: the preview of the file node built for a file with a non-empty
(slash-free) filename is the first 3 entries of its content's lines after
trimming each line and dropping the empty ones, in original order; the two
reference contents evaluate as the specification states. -/
theorem filePreview_firstThreeNonEmpty (fn c : String) (hfn : fn ≠ "")
    (hsl : '/' ∉ fn.toList) :
    generateDirectoryTree [⟨some fn, some c⟩]
      = .ok [(fn, JNode.file c.length (extOf fn)
          ((((jsSplit '\n' c).map jsTrim).filter (fun line => line != "")).take 3))] ∧
    filePreview "line1\n\nline2\nline3\nline4" = ["line1", "line2", "line3"] ∧
    filePreview "\n\nline1\n\n" = ["line1"] := by
  refine ⟨?_, rfl, rfl⟩
  have hsplit : jsSplit '/' fn = [fn] := by
    simp only [jsSplit, splitCh_no_sep '/' fn.toList hsl, List.map]
    rfl
  have hbe : (fn == "") = false := by simpa using hfn
  simp only [generateDirectoryTree, treeGo, Option.getD_some, hbe,
    Bool.false_eq_true, if_false, hsplit, insertPath, alistSet]
  simp only [mkFileNode, filePreview]
  have hfc : List.filter (fun line : String => decide (0 < line.length))
        ((jsSplit '\n' c).map jsTrim)
      = List.filter (fun line : String => line != "") ((jsSplit '\n' c).map jsTrim) :=
    List.filter_congr (fun line _ => strLenPos_bne line)
  rw [hfc]

theorem filePreview_firstThreeNonEmpty_witness :
    generateDirectoryTree [⟨some "a.txt", some "line1\n\nline2\nline3\nline4"⟩]
      = .ok [("a.txt", JNode.file ("line1\n\nline2\nline3\nline4").length (extOf "a.txt")
          ((((jsSplit '\n' "line1\n\nline2\nline3\nline4").map jsTrim).filter
            (fun line => line != "")).take 3))] :=
  (filePreview_firstThreeNonEmpty "a.txt" "line1\n\nline2\nline3\nline4"
    (by decide) (by decide)).1

/-- C6: formatDirectoryTree iterates every mapping in ascending
case-sensitive lexicographic key order: the rendered text is invariant
under the insertion order of equal key/node pairs (keys of a JS object are
unique), and the entry sequence it walks is sorted by key. -/
theorem formatDirectoryTree_deterministic (m₁ m₂ : List (String × JNode))
    (indent : String) (hperm : m₁.Perm m₂) (hnd : (m₁.map Prod.fst).Nodup) :
    formatDirectoryTree m₁ indent = formatDirectoryTree m₂ indent ∧
    List.Sorted (fun a b : String × JNode => a.1 ≤ b.1) (jsSortStable keyCmp m₁) := by
  refine ⟨?_, jsSortStable_keyCmp_sorted m₁⟩
  rw [formatDirectoryTree_eq, formatDirectoryTree_eq,
    jsSortStable_keyCmp_eq_of_perm m₁ m₂ hperm hnd]

theorem formatDirectoryTree_deterministic_witness :
    formatDirectoryTree [("b", JNode.file 1 "b" []), ("a", JNode.file 2 "a" [])] "" =
    formatDirectoryTree [("a", JNode.file 2 "a" []), ("b", JNode.file 1 "b" [])] "" :=
  (formatDirectoryTree_deterministic
    [("b", JNode.file 1 "b" []), ("a", JNode.file 2 "a" [])]
    [("a", JNode.file 2 "a" []), ("b", JNode.file 1 "b" [])] ""
    (List.Perm.swap ("a", JNode.file 2 "a" []) ("b", JNode.file 1 "b" []) [])
    (by decide)).1

/-- C4 counterexample: the currentFile `""` is non-null, yet the unique file
whose filename equals it is not moved to the front: the guard
`currentFile ? ... : files` treats the empty string as falsy and skips the
sort, so the matching block stays second. -/
theorem prepareFileContext_currentFirst_counterexample :
    prepareFileContext [⟨some "a.js", some "A"⟩, ⟨some "", some "B"⟩] (some "")
      = fileBlock (some "") ⟨some "a.js", some "A"⟩ ++ "\n\n"
        ++ fileBlock (some "") ⟨some "", some "B"⟩ ∧
    (⟨some "", some "B"⟩ : SourceFile).filename = some "" ∧
    (⟨some "a.js", some "A"⟩ : SourceFile).filename ≠ some "" ∧
    fileBlock (some "") ⟨some "a.js", some "A"⟩ ≠ fileBlock (some "") ⟨some "", some "B"⟩ :=
  ⟨rfl, rfl, by decide, by decide⟩

/-- C4 amended: for a non-null, non-empty currentFile matched by exactly
one file of the list, `prepareFileContext` places that file's block first
and keeps every other block in its original relative order (a stable
partition, not a full re-sort). -/
theorem prepareFileContext_currentFirst (c : String) (l₁ l₂ : List SourceFile)
    (m : SourceFile) (hc : c ≠ "") (hm : m.filename = some c)
    (h₁ : ∀ f ∈ l₁, f.filename ≠ some c) (h₂ : ∀ f ∈ l₂, f.filename ≠ some c) :
    orderedFiles (some c) (l₁ ++ m :: l₂) = m :: (l₁ ++ l₂) ∧
    prepareFileContext (l₁ ++ m :: l₂) (some c)
      = String.intercalate "\n\n" ((m :: (l₁ ++ l₂)).map (fileBlock (some c))) := by
  have ho := orderedFiles_currentFirst c l₁ l₂ m hc hm h₁ h₂
  exact ⟨ho, by rw [prepareFileContext, ho]⟩

theorem prepareFileContext_currentFirst_witness :
    prepareFileContext [⟨some "a.js", some "A"⟩, ⟨some "b.js", some "B"⟩,
        ⟨some "c.js", some "C"⟩] (some "b.js")
      = String.intercalate "\n\n"
          (([⟨some "b.js", some "B"⟩, ⟨some "a.js", some "A"⟩,
             ⟨some "c.js", some "C"⟩] : List SourceFile).map (fileBlock (some "b.js"))) :=
  (prepareFileContext_currentFirst "b.js" [⟨some "a.js", some "A"⟩]
    [⟨some "c.js", some "C"⟩] ⟨some "b.js", some "B"⟩
    (by decide) rfl (by decide) (by decide)).2

theorem handleUpload_valid (model : ModelClient) (req : UploadRequest)
    (files : List SourceFile) (p : String)
    (hf : req.files = .jarr files) (hp : req.prompt = .jstr p) (hpne : p ≠ "")
    (hcf : truthy req.currentFile = true → isString req.currentFile = true) :
    handleUpload model req =
      match generateDirectoryTree files with
      | .error e => .internalError "Internal server error" e
      | .ok tree =>
        match model p files (cfOrNull req.currentFile) with
        | .error msg => .internalError "Internal server error" msg
        | .ok aiResponse =>
          .success
            { message := "Successfully processed " ++ toString files.length ++ " files."
              aiResponse := aiResponse
              directoryTree := tree
              filesProcessed := files.length
              totalCharacters := (files.map (fun f => (f.content.getD "").length)).sum } := by
  have hpb : (p != "") = true := by simpa using hpne
  have h3 : (truthy req.currentFile && !isString req.currentFile) = false := by
    cases htc : truthy req.currentFile
    · simp
    · simp [hcf htc]
  simp only [handleUpload, hf, hp, jsvArr, jsvStr]
  have c1 : (!truthy (JSVal.jarr files) || !isArray (JSVal.jarr files)) = false := rfl
  have c2 : (!truthy (JSVal.jstr p) || !isString (JSVal.jstr p)) = false := by
    simp only [truthy, isString, hpb, Bool.not_true, Bool.or_false]
  simp only [c1, c2, h3, Bool.false_eq_true, if_false]

/-- C5: when the model client fails with an error whose message is `msg`,
the upload handler answers with the `Internal server error` envelope
carrying `msg` verbatim, never with a success envelope. -/
theorem handleUpload_modelError (model : ModelClient) (req : UploadRequest)
    (files : List SourceFile) (p msg : String) (tree : List (String × JNode))
    (hf : req.files = .jarr files) (hp : req.prompt = .jstr p) (hpne : p ≠ "")
    (hcf : truthy req.currentFile = true → isString req.currentFile = true)
    (ht : generateDirectoryTree files = .ok tree)
    (hm : model p files (cfOrNull req.currentFile) = .error msg) :
    handleUpload model req = .internalError "Internal server error" msg ∧
    ∀ resp, handleUpload model req ≠ .success resp := by
  have h := handleUpload_valid model req files p hf hp hpne hcf
  rw [ht] at h
  dsimp only at h
  rw [hm] at h
  exact ⟨h, fun resp hr => by rw [h] at hr; exact nomatch hr⟩

theorem handleUpload_modelError_witness :
    handleUpload (fun _ _ _ => Except.error "boom") ⟨.jarr [], .jstr "test", .undef⟩
      = .internalError "Internal server error" "boom" :=
  (handleUpload_modelError (fun _ _ _ => Except.error "boom")
    ⟨.jarr [], .jstr "test", .undef⟩ [] "test" "boom" [] rfl rfl (by decide)
    (fun h => nomatch h) rfl rfl).1

/-- C9: a valid request (files an array, prompt a non-empty string, an
acceptable currentFile) whose tree build returns and whose model call
succeeds is answered with the success envelope: message
`Successfully processed {N} files.` for `N` the length of the files array,
`filesProcessed = N`, and `totalCharacters` the sum of the content lengths
with a missing content contributing 0. -/
theorem handleUpload_success (model : ModelClient) (req : UploadRequest)
    (files : List SourceFile) (p r : String) (tree : List (String × JNode))
    (hf : req.files = .jarr files) (hp : req.prompt = .jstr p) (hpne : p ≠ "")
    (hcf : truthy req.currentFile = true → isString req.currentFile = true)
    (ht : generateDirectoryTree files = .ok tree)
    (hm : model p files (cfOrNull req.currentFile) = .ok r) :
    handleUpload model req = .success
      { message := "Successfully processed " ++ toString files.length ++ " files."
        aiResponse := r
        directoryTree := tree
        filesProcessed := files.length
        totalCharacters := (files.map (fun f => (f.content.getD "").length)).sum } := by
  have h := handleUpload_valid model req files p hf hp hpne hcf
  rw [ht] at h
  dsimp only at h
  rw [hm] at h
  exact h

set_option maxRecDepth 4000 in
theorem handleUpload_success_witness :
    handleUpload okModel ⟨.jarr [], .jstr "test", .undef⟩
      = .success
          { message := "Successfully processed 0 files.", aiResponse := "ok",
            directoryTree := [], filesProcessed := 0, totalCharacters := 0 } ∧
    handleUpload okModel
      ⟨.jarr [⟨some "a.js", some (String.mk (List.replicate 50 'a'))⟩,
              ⟨some "b.js", some (String.mk (List.replicate 100 'b'))⟩,
              ⟨some "c.js", some (String.mk (List.replicate 150 'c'))⟩],
        .jstr "test", .undef⟩
      = .success
          { message := "Successfully processed 3 files.", aiResponse := "ok",
            directoryTree :=
              [("a.js", JNode.file 50 "js" [String.mk (List.replicate 50 'a')]),
               ("b.js", JNode.file 100 "js" [String.mk (List.replicate 100 'b')]),
               ("c.js", JNode.file 150 "js" [String.mk (List.replicate 150 'c')])],
            filesProcessed := 3, totalCharacters := 300 } :=
  ⟨handleUpload_success okModel ⟨.jarr [], .jstr "test", .undef⟩ [] "test" "ok" []
    rfl rfl (by decide) (fun h => nomatch h) rfl rfl,
   handleUpload_success okModel _
    [⟨some "a.js", some (String.mk (List.replicate 50 'a'))⟩,
     ⟨some "b.js", some (String.mk (List.replicate 100 'b'))⟩,
     ⟨some "c.js", some (String.mk (List.replicate 150 'c'))⟩] "test" "ok"
    [("a.js", JNode.file 50 "js" [String.mk (List.replicate 50 'a')]),
     ("b.js", JNode.file 100 "js" [String.mk (List.replicate 100 'b')]),
     ("c.js", JNode.file 150 "js" [String.mk (List.replicate 150 'c')])]
    rfl rfl (by decide) (fun h => nomatch h) rfl rfl⟩

/-- C1 counterexample: the empty-string prompt is present and is a string,
so none of the claim's three failure conditions holds, yet the handler
rejects the request with the prompt validation message — `!prompt` also
fires on the (falsy) empty string. -/
theorem handleUpload_validation_counterexample :
    handleUpload okModel ⟨.jarr [], .jstr "", .undef⟩
      = .validationError "Invalid request: prompt must be a string" ∧
    isString (JSVal.jstr "") = true ∧
    JSVal.jstr "" ≠ JSVal.undef :=
  ⟨rfl, rfl, by decide⟩

/-- C1 amended: the handler fails with a ValidationError exactly when
`files` is falsy or not an array (message citing `files must be an array`),
`prompt` is falsy — missing, empty, or otherwise falsy — or not a string
(message citing `prompt must be a string`), or `currentFile` is truthy and
not a string (message citing `currentFile must be a string when provided`);
on such a failure the outcome carries no directory tree and is independent
of the model client, which is never invoked. -/
theorem handleUpload_validation (model : ModelClient) (req : UploadRequest) :
    ((truthy req.files = false ∨ isArray req.files = false) →
      handleUpload model req
        = .validationError "Invalid request: files must be an array") ∧
    (truthy req.files = true → isArray req.files = true →
     (truthy req.prompt = false ∨ isString req.prompt = false) →
      handleUpload model req
        = .validationError "Invalid request: prompt must be a string") ∧
    (truthy req.files = true → isArray req.files = true →
     truthy req.prompt = true → isString req.prompt = true →
     truthy req.currentFile = true → isString req.currentFile = false →
      handleUpload model req
        = .validationError "Invalid request: currentFile must be a string when provided") ∧
    ((∃ e, handleUpload model req = .validationError e) ↔
      ((truthy req.files = false ∨ isArray req.files = false) ∨
       (truthy req.prompt = false ∨ isString req.prompt = false) ∨
       (truthy req.currentFile = true ∧ isString req.currentFile = false))) ∧
    (((truthy req.files = false ∨ isArray req.files = false) ∨
      (truthy req.prompt = false ∨ isString req.prompt = false) ∨
      (truthy req.currentFile = true ∧ isString req.currentFile = false)) →
      ∀ model2 : ModelClient, handleUpload model req = handleUpload model2 req) := by
  have huif : ∀ mo : ModelClient, handleUpload mo req =
      (if (!truthy req.files || !isArray req.files) = true then
        UploadResult.validationError "Invalid request: files must be an array"
      else if (!truthy req.prompt || !isString req.prompt) = true then
        UploadResult.validationError "Invalid request: prompt must be a string"
      else if (truthy req.currentFile && !isString req.currentFile) = true then
        UploadResult.validationError "Invalid request: currentFile must be a string when provided"
      else
        match generateDirectoryTree (jsvArr req.files) with
        | .error e => .internalError "Internal server error" e
        | .ok tree =>
          match mo (jsvStr req.prompt) (jsvArr req.files) (cfOrNull req.currentFile) with
          | .error msg => .internalError "Internal server error" msg
          | .ok aiResponse =>
            .success
              { message := "Successfully processed "
                  ++ toString (jsvArr req.files).length ++ " files."
                aiResponse := aiResponse
                directoryTree := tree
                filesProcessed := (jsvArr req.files).length
                totalCharacters :=
                  ((jsvArr req.files).map (fun f => (f.content.getD "").length)).sum }) :=
    fun mo => rfl
  have hb1 : ∀ (h : truthy req.files = false ∨ isArray req.files = false),
      (!truthy req.files || !isArray req.files) = true := by
    rintro (h | h) <;> simp [h]
  have hb1f : truthy req.files = true → isArray req.files = true →
      (!truthy req.files || !isArray req.files) = false := by
    intro ha hb; simp [ha, hb]
  have hb2 : ∀ (h : truthy req.prompt = false ∨ isString req.prompt = false),
      (!truthy req.prompt || !isString req.prompt) = true := by
    rintro (h | h) <;> simp [h]
  have hb2f : truthy req.prompt = true → isString req.prompt = true →
      (!truthy req.prompt || !isString req.prompt) = false := by
    intro ha hb; simp [ha, hb]
  have hb3 : truthy req.currentFile = true → isString req.currentFile = false →
      (truthy req.currentFile && !isString req.currentFile) = true := by
    intro ha hb; simp [ha, hb]
  have h1 : (truthy req.files = false ∨ isArray req.files = false) →
      handleUpload model req
        = .validationError "Invalid request: files must be an array" := by
    intro h
    rw [huif model, if_pos (hb1 h)]
  have h2 : truthy req.files = true → isArray req.files = true →
      (truthy req.prompt = false ∨ isString req.prompt = false) →
      handleUpload model req
        = .validationError "Invalid request: prompt must be a string" := by
    intro ha hb h
    rw [huif model, if_neg (by simp [hb1f ha hb]), if_pos (hb2 h)]
  have h3 : truthy req.files = true → isArray req.files = true →
      truthy req.prompt = true → isString req.prompt = true →
      truthy req.currentFile = true → isString req.currentFile = false →
      handleUpload model req
        = .validationError "Invalid request: currentFile must be a string when provided" := by
    intro ha hb hc hd he hg
    rw [huif model, if_neg (by simp [hb1f ha hb]), if_neg (by simp [hb2f hc hd]),
      if_pos (hb3 he hg)]
  refine ⟨h1, h2, h3, ⟨?_, ?_⟩, ?_⟩
  · rintro ⟨e, he⟩
    by_contra hno
    push_neg at hno
    obtain ⟨⟨hnA1, hnA2⟩, ⟨hnB1, hnB2⟩, hnC⟩ := hno
    have htf : truthy req.files = true := by
      cases hx : truthy req.files
      · exact absurd hx hnA1
      · rfl
    have haf : isArray req.files = true := by
      cases hx : isArray req.files
      · exact absurd hx hnA2
      · rfl
    have htp : truthy req.prompt = true := by
      cases hx : truthy req.prompt
      · exact absurd hx hnB1
      · rfl
    have hsp : isString req.prompt = true := by
      cases hx : isString req.prompt
      · exact absurd hx hnB2
      · rfl
    have hc3 : (truthy req.currentFile && !isString req.currentFile) = false := by
      cases hx : truthy req.currentFile
      · simp
      · cases hy : isString req.currentFile
        · exact absurd hy (hnC hx)
        · simp [hy]
    rw [huif model, if_neg (by simp [hb1f htf haf]), if_neg (by simp [hb2f htp hsp]),
      if_neg (by simp [hc3])] at he
    rcases hg : generateDirectoryTree (jsvArr req.files) with e2 | tree2
    · rw [hg] at he
      exact nomatch he
    · rw [hg] at he
      dsimp only at he
      rcases hmo : model (jsvStr req.prompt) (jsvArr req.files) (cfOrNull req.currentFile)
        with m2 | r2
      · rw [hmo] at he
        exact nomatch he
      · rw [hmo] at he
        exact nomatch he
  · rintro (h | h | h)
    · exact ⟨_, h1 h⟩
    · by_cases bf : (!truthy req.files || !isArray req.files) = true
      · exact ⟨_, by rw [huif model, if_pos bf]⟩
      · exact ⟨_, by rw [huif model, if_neg bf, if_pos (hb2 h)]⟩
    · by_cases bf : (!truthy req.files || !isArray req.files) = true
      · exact ⟨_, by rw [huif model, if_pos bf]⟩
      · by_cases bp : (!truthy req.prompt || !isString req.prompt) = true
        · exact ⟨_, by rw [huif model, if_neg bf, if_pos bp]⟩
        · exact ⟨_, by rw [huif model, if_neg bf, if_neg bp, if_pos (hb3 h.1 h.2)]⟩
  · rintro (h | h | h) <;> intro model2
    · rw [huif model, huif model2, if_pos (hb1 h), if_pos (hb1 h)]
    · by_cases bf : (!truthy req.files || !isArray req.files) = true
      · rw [huif model, huif model2, if_pos bf, if_pos bf]
      · rw [huif model, huif model2, if_neg bf, if_neg bf,
          if_pos (hb2 h), if_pos (hb2 h)]
    · by_cases bf : (!truthy req.files || !isArray req.files) = true
      · rw [huif model, huif model2, if_pos bf, if_pos bf]
      · by_cases bp : (!truthy req.prompt || !isString req.prompt) = true
        · rw [huif model, huif model2, if_neg bf, if_neg bf, if_pos bp, if_pos bp]
        · rw [huif model, huif model2, if_neg bf, if_neg bf, if_neg bp, if_neg bp,
            if_pos (hb3 h.1 h.2), if_pos (hb3 h.1 h.2)]

theorem handleUpload_validation_witness :
    handleUpload okModel ⟨.jstr "nope", .jstr "ok", .undef⟩
      = .validationError "Invalid request: files must be an array" ∧
    handleUpload okModel ⟨.jarr [], .jnum 5, .undef⟩
      = .validationError "Invalid request: prompt must be a string" ∧
    handleUpload okModel ⟨.jarr [], .jstr "hi", .jnum 3⟩
      = .validationError "Invalid request: currentFile must be a string when provided" :=
  ⟨(handleUpload_validation okModel ⟨.jstr "nope", .jstr "ok", .undef⟩).1
      (Or.inr rfl),
   (handleUpload_validation okModel ⟨.jarr [], .jnum 5, .undef⟩).2.1
      rfl rfl (Or.inr rfl),
   (handleUpload_validation okModel ⟨.jarr [], .jstr "hi", .jnum 3⟩).2.2.1
      rfl rfl (by decide) rfl (by decide) rfl⟩
